import Mathlib

/-!
A shallow embedding of the core argument-parsing engine of the getopt-rs
repository (the `aopt` crate is the canonical generation; the legacy
`getopt-rs` crate is embedded only where a claim cites it).

Strings (`Str`, `RawVal`) are modelled as lists of characters; machine
`usize` values are `Nat`; fallible Rust functions returning
`Result<_, Error>` become `Except Error _`.
-/

namespace Aopt

/-- Rust `Str`/`String` modelled as a list of characters. -/
abbrev Str := List Char

/-- `RawVal` (src/aopt/src/raw.rs): a wrapper around a string value. -/
abbrev RawVal := Str

/-- Registry-assigned unique identifier of an option. -/
abbrev Uid := Nat

/-- The error type (src/aopt/src/err.rs is not under src/; constructors
follow the raising sites that are: `Error::raise_error`,
`Error::sp_option_not_found`, `Error::sp_missing_argument`).  `panicked`
marks the `unimplemented!` branches of `guess`, which the policies never
reach. -/
inductive Error where
  | raiseError : Error
  | spOptionNotFound (name : Str) : Error
  | spMissingArgument (hint : Str) : Error
  | panicked : Error
deriving DecidableEq, Repr

/-- `Style` (option style capability, src/aopt/src/opt aggregate; the
variants used by src/aopt/src/parser/style.rs and src/aopt/src/proc). -/
inductive Style where
  | Main | Pos | Cmd | Argument | Boolean | Combined | Null
deriving DecidableEq, Repr

/-- `UserStyle` (src/aopt/src/parser/style.rs, lines 20-45). -/
inductive UserStyle where
  | Main | Pos | Cmd
  | EqualWithValue | Argument | EmbeddedValue | CombinedOption | Boolean
  | Custom (n : Nat)
deriving DecidableEq, Repr

/-- The parsed command-line token descriptor `CLOpt` (the aopt `args`
module is not under src/; fields are exactly those read by
`OptGuess::guess` in src/aopt/src/parser/style.rs: `name`, `prefix`,
`value`, `disable`).  The Rust field `prefix` is named `pfx` here. -/
structure CLOpt where
  name : Option Str
  pfx : Option Str
  value : Option Str
  disable : Bool
deriving DecidableEq, Repr

/-- `GuessOptCfg` (src/aopt/src/parser/style.rs, lines 66-97). -/
structure GuessOptCfg where
  idx : Nat
  len : Nat
  arg : Option RawVal
  clopt : CLOpt
deriving DecidableEq, Repr

/-- `OptMatch` (src/aopt/src/proc/opt.rs, lines 16-36); the Rust field
`prefix` is named `pfx`, `disbale` (sic) is `disable`. -/
structure OptMatch where
  pfx : Str := []
  name : Str := []
  style : Style := .Null
  argument : Option RawVal := none
  matchedUid : Option Uid := none
  disable : Bool := false
  consumeArg : Bool := false
  index : Nat := 0
  total : Nat := 0
deriving DecidableEq, Repr

/-- `OptProcess` (src/aopt/src/proc/opt.rs, lines 220-224). -/
structure OptProcess where
  mats : List OptMatch
  consumeArg : Bool
deriving DecidableEq, Repr

/-- `OptProcess::new` (src/aopt/src/proc/opt.rs, lines 236-241). -/
def OptProcess.new (mats : List OptMatch) : OptProcess :=
  { mats := mats, consumeArg := false }

/-- `valueof` (src/aopt/src/parser/style.rs, lines 58-63). -/
def valueof (value : Option Str) : Except Error Str :=
  match value with
  | some s => .ok s
  | none => .error .raiseError

/-- `BOOL_TRUE` rendered by `OptGuess::bool2str` (style.rs, lines 113-119). -/
def boolTrue : RawVal := [ 't', 'r', 'u', 'e' ]

/-- `BOOL_FALSE` rendered by `OptGuess::bool2str` (style.rs, lines 113-119). -/
def boolFalse : RawVal := [ 'f', 'a', 'l', 's', 'e' ]

/-- `OptGuess::bool2str` (src/aopt/src/parser/style.rs, lines 113-119). -/
def bool2str (value : Bool) : RawVal :=
  if value then boolTrue else boolFalse

/-- `OptGuess::guess` (src/aopt/src/parser/style.rs, lines 130-231).
Produces the `OptMatch` candidates for one token under one user style;
`name.split_at(1)` of the source is `take 1` / `drop 1` in the
list-of-characters model of strings. -/
def OptGuess.guess (style : UserStyle) (cfg : GuessOptCfg) :
    Except Error (Option OptProcess) := do
  let index := cfg.idx
  let count := cfg.len
  let clopt := cfg.clopt
  let mats ←
    match style with
    | .EqualWithValue =>
        if clopt.value.isSome then do
          let n ← valueof clopt.name
          let p ← valueof clopt.pfx
          pure [ { index := index, total := count, argument := clopt.value,
                   style := .Argument, disable := clopt.disable,
                   name := n, pfx := p : OptMatch } ]
        else pure []
    | .Argument =>
        if clopt.value.isNone && cfg.arg.isSome then do
          let n ← valueof clopt.name
          let p ← valueof clopt.pfx
          pure [ { index := index, total := count, consumeArg := true,
                   argument := cfg.arg, style := .Argument,
                   disable := clopt.disable, name := n, pfx := p : OptMatch } ]
        else pure []
    | .EmbeddedValue =>
        if clopt.value.isNone then
          match clopt.name with
          | some name =>
            if name.length ≥ 2 then do
              let p ← valueof clopt.pfx
              pure [ { index := index, total := count,
                       argument := some (name.drop 1), style := .Argument,
                       disable := clopt.disable, name := name.take 1,
                       pfx := p : OptMatch } ]
            else pure []
          | none => pure []
        else pure []
    | .CombinedOption =>
        if clopt.value.isNone then
          match clopt.name with
          | some name =>
            if name.length > 1 then do
              let p ← valueof clopt.pfx
              pure (name.map fun c =>
                { index := index, total := count, argument := none,
                  style := .Combined, disable := clopt.disable,
                  name := [ c ], pfx := p : OptMatch })
            else pure []
          | none => pure []
        else pure []
    | .Boolean =>
        if clopt.value.isNone then do
          let n ← valueof clopt.name
          let p ← valueof clopt.pfx
          pure [ { index := index, total := count,
                   argument := some (bool2str (! clopt.disable)),
                   style := .Boolean, disable := clopt.disable,
                   name := n, pfx := p : OptMatch } ]
        else pure []
    | _ => .error .panicked
  pure (if mats.isEmpty then none else some (OptProcess.new mats))

/-- The value-check behaviour of an option (`Opt::check_val`).  The concrete
`AOpt` implementation is not under src/, so the checker is a small symbolic
language interpreted by `ValChecker.run`; it can depend on the raw argument
exactly as the source's validator can. -/
inductive ValChecker where
  | const (b : Bool)
  | requireArg
  | argEq (s : Str)
  | failing
deriving DecidableEq, Repr

/-- Interpretation of a `ValChecker` on the inputs `check_val` receives:
the optional raw argument, the disable flag, and the (index, total) pair. -/
def ValChecker.run : ValChecker → Option RawVal → Bool → Nat × Nat → Except Error Bool
  | .const b, _, _, _ => .ok b
  | .requireArg, a, _, _ => .ok a.isSome
  | .argEq s, a, _, _ => .ok (a == some s)
  | .failing, _, _, _ => .error .raiseError

/-- A declared option as seen through the `Opt` trait interface used by
src/aopt/src/proc/opt.rs and src/aopt/src/proc/noa.rs (the concrete `AOpt`
implementation is not under src/): uid, name, prefix, alias set,
style-capability set, the "setted" flag, and the value-check behaviour.
`vals` models the option's Value Accessor state (the ordered vector of
stored values, spec §3). -/
structure Opt where
  uid : Uid
  name : Str
  pfx : Option Str
  aliases : List (Str × Str)
  styles : List Style
  setted : Bool
  vals : List RawVal
  checker : ValChecker
deriving DecidableEq, Repr

/-- `Opt::mat_style`: membership in the option's style-capability set. -/
def Opt.matStyle (o : Opt) (s : Style) : Bool := o.styles.contains s

/-- `Opt::mat_name`: name equality (a `None` query matches). -/
def Opt.matName (o : Opt) (n : Option Str) : Bool :=
  match n with
  | some s => s == o.name
  | none => true

/-- `Opt::mat_prefix`: prefix equality (spec §4.2). -/
def Opt.matPfx (o : Opt) (p : Option Str) : Bool := p == o.pfx

/-- `Opt::mat_alias`: membership of the (prefix, name) pair in the alias set. -/
def Opt.matAlias (o : Opt) (p n : Str) : Bool := o.aliases.contains (p, n)

/-- `Opt::check_val`, dispatched to the option's checker. -/
def Opt.checkVal (o : Opt) (arg : Option RawVal) (dis : Bool) (it : Nat × Nat) :
    Except Error Bool :=
  o.checker.run arg dis it

/-- `Opt::set_setted`. -/
def Opt.setSetted (o : Opt) (b : Bool) : Opt := { o with setted := b }

/-- `Match::reset` for `OptMatch` (src/aopt/src/proc/opt.rs, lines 150-152). -/
def OptMatch.reset (m : OptMatch) : OptMatch := { m with matchedUid := none }

/-- `Match::is_mat` for `OptMatch` (src/aopt/src/proc/opt.rs, lines 154-156). -/
def OptMatch.isMat (m : OptMatch) : Bool := m.matchedUid.isSome

/-- `Match::undo` for `OptMatch` (src/aopt/src/proc/opt.rs, lines 178-182):
clear the option's "setted" flag and reset the match. -/
def OptMatch.undo (m : OptMatch) (opt : Opt) : OptMatch × Opt :=
  (m.reset, opt.setSetted false)

/-- `Match::process` for `OptMatch` (src/aopt/src/proc/opt.rs, lines 187-216):
style check, then name-and-prefix or alias equality, then the
missing-argument check for consuming candidates, then `check_val`; on
success the option's "setted" flag is raised and the match records the uid. -/
def OptMatch.process (m : OptMatch) (opt : Opt) : Except Error (Bool × OptMatch × Opt) :=
  let matched := opt.matStyle m.style
  let matched :=
    if matched then
      (opt.matName (some m.name) && opt.matPfx (some m.pfx)) || opt.matAlias m.pfx m.name
    else matched
  if matched then
    if m.consumeArg && m.argument.isNone then
      .error (.spMissingArgument opt.name)
    else
      match opt.checkVal m.argument m.disable (m.index, m.total) with
      | .error e => .error e
      | .ok true => .ok (true, { m with matchedUid := some opt.uid }, opt.setSetted true)
      | .ok false => .ok (false, m, opt)
  else .ok (false, m, opt)

/-- The option registry (`Set`) as the ordered list of declared options. -/
abbrev OptSet := List Opt

/-- `Set::get(_mut)`: look an option up by uid. -/
def Set.getOpt (set : OptSet) (uid : Uid) : Option Opt :=
  set.find? (fun o => o.uid == uid)

/-- Write an updated option back into the registry (the effect of mutation
through `Set::get_mut`). -/
def Set.update (set : OptSet) (o' : Opt) : OptSet :=
  set.map (fun o => if o.uid == o'.uid then o' else o)

/-- `OptProcess::is_mat` (src/aopt/src/proc/opt.rs, lines 272-274): the
process is fully matched when every candidate is matched. -/
def OptProcess.isMat (p : OptProcess) : Bool :=
  p.mats.all (fun m => m.isMat)

/-- One iteration of the loop of `OptProcess::undo`
(src/aopt/src/proc/opt.rs, lines 296-302): when the candidate recorded a
uid that is in the registry, run `OptMatch.undo` on that option. -/
def OptProcess.undoStep (acc : List OptMatch × OptSet) (m : OptMatch) :
    List OptMatch × OptSet :=
  match m.matchedUid with
  | some uid =>
    match Set.getOpt acc.2 uid with
    | some opt =>
      let r := m.undo opt
      (acc.1 ++ [ r.1 ], Set.update acc.2 r.2)
    | none => (acc.1 ++ [ m ], acc.2)
  | none => (acc.1 ++ [ m ], acc.2)

/-- `OptProcess::undo` (src/aopt/src/proc/opt.rs, lines 295-304): for every
matched candidate whose uid is in the registry, run `OptMatch.undo`. -/
def OptProcess.undo (p : OptProcess) (set : OptSet) : OptProcess × OptSet :=
  let r := p.mats.foldl OptProcess.undoStep ([], set)
  ({ p with mats := r.1 }, r.2)

/-- The inner candidate loop of `OptProcess::process`
(src/aopt/src/proc/opt.rs, lines 321-326): the first not-yet-matched
candidate that processes successfully against the option wins; its position
and consume flag are reported. -/
def OptProcess.goMats (opt : Opt) : List OptMatch →
    Except Error (List OptMatch × Opt × Option (Nat × Bool))
  | [] => .ok ([], opt, none)
  | m :: rest =>
    if m.isMat then
      match OptProcess.goMats opt rest with
      | .error e => .error e
      | .ok (rest', opt', r) => .ok (m :: rest', opt', r.map (fun ic => (ic.1 + 1, ic.2)))
    else
      match m.process opt with
      | .error e => .error e
      | .ok (true, m', opt') => .ok (m' :: rest, opt', some (0, m'.consumeArg))
      | .ok (false, m', opt') =>
        match OptProcess.goMats opt' rest with
        | .error e => .error e
        | .ok (rest', opt'', r) => .ok (m' :: rest', opt'', r.map (fun ic => (ic.1 + 1, ic.2)))

/-- `OptProcess::process` for one uid (src/aopt/src/proc/opt.rs, lines
307-330): style capability check (Argument or Boolean or Combined), then
the candidate loop; a successful match updates the registry and the
process's consume flag. -/
def OptProcess.processUid (p : OptProcess) (uid : Uid) (set : OptSet) :
    Except Error (OptProcess × OptSet × Option Nat) :=
  match Set.getOpt set uid with
  | none => .ok (p, set, none)
  | some opt =>
    if opt.matStyle .Argument || opt.matStyle .Boolean || opt.matStyle .Combined then
      match OptProcess.goMats opt p.mats with
      | .error e => .error e
      | .ok (mats', opt', some ic) =>
        .ok ({ mats := mats', consumeArg := p.consumeArg || ic.2 },
             Set.update set opt', some ic.1)
      | .ok (_, _, none) => .ok (p, set, none)
    else .ok (p, set, none)

/-- `NOAMatch` (src/aopt/src/proc/noa.rs, lines 16-32). -/
structure NOAMatch where
  name : Option Str := none
  args : List RawVal := []
  style : Style := .Null
  noaIndex : Nat := 0
  noaTotal : Nat := 0
  matchedUid : Option Uid := none
  matchedIndex : Option Nat := none
deriving DecidableEq, Repr

/-- `NOAProcess` (src/aopt/src/proc/noa.rs, lines 184-188). -/
structure NOAProcess where
  mats : Option NOAMatch
  consumeArg : Bool
deriving DecidableEq, Repr

/-- `NOAProcess::new` (src/aopt/src/proc/noa.rs, lines 200-205). -/
def NOAProcess.new (mats : Option NOAMatch) : NOAProcess :=
  { mats := mats, consumeArg := false }

/-- `Match::undo` for `NOAMatch` (src/aopt/src/proc/noa.rs, lines 150-154):
clear the option's "setted" flag and reset the match (matched index and
matched uid). -/
def NOAMatch.undo (m : NOAMatch) (opt : Opt) : NOAMatch × Opt :=
  ({ m with matchedUid := none, matchedIndex := none }, opt.setSetted false)

/-- `GuessNOACfg` (src/aopt/src/parser/style.rs, lines 233-251). -/
structure GuessNOACfg where
  args : List RawVal
  index : Nat
  total : Nat
deriving DecidableEq, Repr

/-- `NOAGuess::guess` (src/aopt/src/parser/style.rs, lines 276-331): for the
NOA styles Main/Pos/Cmd, produce exactly one `NOAMatch` whose name is the
argument at `pos - 1` (for positive positions); other styles are the
`unimplemented!` branch. -/
def NOAGuess.guess (style : UserStyle) (cfg : GuessNOACfg) :
    Except Error (Option NOAProcess) :=
  let args := cfg.args
  let pos := cfg.index
  let count := cfg.total
  let name := if pos > 0 then args.get? (pos - 1) else none
  match style with
  | .Main =>
    .ok (some (NOAProcess.new (some
      { name := name, args := args, noaIndex := pos, noaTotal := count, style := .Main })))
  | .Pos =>
    .ok (some (NOAProcess.new (some
      { name := name, args := args, noaIndex := pos, noaTotal := count, style := .Pos })))
  | .Cmd =>
    .ok (some (NOAProcess.new (some
      { name := name, args := args, noaIndex := pos, noaTotal := count, style := .Cmd })))
  | _ => .error .panicked

/-- Split a string at its first `=`: the part before it and, when an `=` is
present, the part after it. -/
def splitEq : Str → Str × Option Str
  | [] => ([], none)
  | c :: rest =>
    if c = '=' then ([], some rest)
    else
      let r := splitEq rest
      (c :: r.1, r.2)

/-- Modelled from the spec: the command-line token parser (the aopt `args`
module with `ArgParser`/`parse_arg` is not under src/).  Per §6 a token is
prefix + name (+ `=value`) with the boolean disable form marked by a
leading slash before the name (as in `--` then `/flag`), over a
configurable prefix set: the first matching non-empty prefix of the
registry's prefix list is split off, a leading `/` of the remainder marks
the disable form, the rest splits at the first `=` into name and value.
A token with no recognized prefix or an empty name does not parse;
`FwdPolicy::parse_impl` treats both the parse failure and the absent name
the same way (the token falls through to the NOA list). -/
def parseArg (prefixes : List Str) (tok : RawVal) : Option CLOpt :=
  match prefixes.find? (fun p => p.isPrefixOf tok && !p.isEmpty) with
  | none => none
  | some p =>
    let rest := tok.drop p.length
    let dis := rest.head? == some '/'
    let rest := if dis then rest.drop 1 else rest
    let nv := splitEq rest
    if nv.1.isEmpty then none
    else some { name := some nv.1, pfx := some p, value := nv.2, disable := dis }

/-- Modelled from the spec: `process_opt` (src/aopt/src/parser/process.rs is
not under src/).  Per §4.2 the Option Process tries each Registry uid in
declared order, stopping at the first full match (`Process::quit`); the
per-uid matching is `OptProcess.processUid`, which is under src/.  When the
process ends not fully matched its modification is undone via
`OptProcess.undo`.  Handler invocation and value storing are outside this
model. -/
def process_opt_go (proc : OptProcess) (set : OptSet) :
    List Uid → Except Error (OptProcess × OptSet)
  | [] => .ok (proc, set)
  | uid :: rest =>
    match proc.processUid uid set with
    | .error e => .error e
    | .ok (p, s, _) =>
      if p.isMat then .ok (p, s)
      else process_opt_go p s rest

/-- Modelled from the spec: `process_opt` driver, see `process_opt_go`. -/
def process_opt (set : OptSet) (proc : OptProcess) :
    Except Error (OptProcess × OptSet) :=
  match process_opt_go proc set (set.map (fun o => o.uid)) with
  | .error e => .error e
  | .ok (p, s) =>
    if p.isMat then .ok (p, s)
    else .ok (p.undo s)

/-- The per-token style loop of `FwdPolicy::parse_impl`
(src/aopt/src/parser/policy_fwd.rs, lines 264-291): try each enabled user
style in order; the first fully matched option process wins; the consume
flag accumulates (`if proc.is_consume() { consume = true; }`).
Returns (matched, consume, updated registry). -/
def FwdPolicy.styleLoop (idx len : Nat) (arg : Option RawVal) (clopt : CLOpt)
    (set : OptSet) (consume : Bool) :
    List UserStyle → Except Error (Bool × Bool × OptSet)
  | [] => .ok (false, consume, set)
  | sty :: rest =>
    match OptGuess.guess sty { idx := idx, len := len, arg := arg, clopt := clopt } with
    | .error e => .error e
    | .ok none => FwdPolicy.styleLoop idx len arg clopt set consume rest
    | .ok (some proc) =>
      match process_opt set proc with
      | .error e => .error e
      | .ok (proc', set') =>
        let consume' := consume || proc'.consumeArg
        if proc'.isMat then .ok (true, consume', set')
        else FwdPolicy.styleLoop idx len arg clopt set' consume' rest

/-- The OptionScan loop of `FwdPolicy::parse_impl`
(src/aopt/src/parser/policy_fwd.rs, lines 252-311): walk the token list in
original order (`idx` is the position in the original argument list and
`len` its length); a token that parses as a prefixed option goes through
the style loop; in strict mode a recognised token matched by no option is
`sp_option_not_found`; a match that consumed the following token skips it;
every unmatched token is appended, in order, to the NOA list. -/
def FwdPolicy.optionScanGo (strict : Bool) (styles : List UserStyle)
    (prefixes : List Str) (len : Nat) (set : OptSet) (noa : List RawVal)
    (idx : Nat) (toks : List RawVal) : Except Error (OptSet × List RawVal) :=
  match toks with
  | [] => .ok (set, noa)
  | tok :: rest =>
    match parseArg prefixes tok with
    | none =>
      FwdPolicy.optionScanGo strict styles prefixes len set (noa ++ [ tok ]) (idx + 1) rest
    | some clopt =>
      match clopt.name with
      | none =>
        FwdPolicy.optionScanGo strict styles prefixes len set (noa ++ [ tok ]) (idx + 1) rest
      | some nm =>
        match FwdPolicy.styleLoop idx len rest.head? clopt set false styles with
        | .error e => .error e
        | .ok (matched, consume, set') =>
          if !matched && strict then .error (.spOptionNotFound nm)
          else if matched && consume then
            match rest with
            | [] => .ok (set', noa)
            | _ :: rest' =>
              FwdPolicy.optionScanGo strict styles prefixes len set' noa (idx + 2) rest'
          else if matched then
            FwdPolicy.optionScanGo strict styles prefixes len set' noa (idx + 1) rest
          else
            FwdPolicy.optionScanGo strict styles prefixes len set' (noa ++ [ tok ]) (idx + 1) rest

/-- OptionScan over a whole argument list (the loop of
`FwdPolicy::parse_impl` started with an empty NOA list). -/
def FwdPolicy.optionScan (strict : Bool) (styles : List UserStyle)
    (prefixes : List Str) (set : OptSet) (args : List RawVal) :
    Except Error (OptSet × List RawVal) :=
  FwdPolicy.optionScanGo strict styles prefixes args.length set [] 0 args

/-- `FwdPolicy::noa_cmd` (src/aopt/src/parser/policy_fwd.rs, lines 184-186). -/
def FwdPolicy.noaCmd : Nat := 1

/-- `FwdPolicy::noa_main` (src/aopt/src/parser/policy_fwd.rs, lines 188-190). -/
def FwdPolicy.noaMain : Nat := 0

/-- `FwdPolicy::noa_pos` (src/aopt/src/parser/policy_fwd.rs, lines 192-194). -/
def FwdPolicy.noaPos (idx : Nat) : Nat := idx

/-- The NOA positions PosScan iterates in `FwdPolicy::parse_impl`
(src/aopt/src/parser/policy_fwd.rs, line 340): `for idx in 1..noa_len`,
the half-open Rust range, passing `Self::noa_pos(idx)`. -/
def FwdPolicy.posPositions (noaLen : Nat) : List Nat :=
  ((List.range noaLen).drop 1).map FwdPolicy.noaPos

/-- The NOA phase of `FwdPolicy::parse_impl`
(src/aopt/src/parser/policy_fwd.rs, lines 315-382) as the ordered trace of
(user style, NOA position) pairs handed to `NOAGuess::guess`: when the NOA
list is non-empty, Cmd at position `noa_cmd()` then Pos over
`posPositions`; Main at position `noa_main()` always. -/
def FwdPolicy.noaTrace (noaLen : Nat) : List (UserStyle × Nat) :=
  (if noaLen > 0 then
    (UserStyle.Cmd, FwdPolicy.noaCmd)
      :: (FwdPolicy.posPositions noaLen).map (fun i => (UserStyle.Pos, i))
   else []) ++ [ (UserStyle.Main, FwdPolicy.noaMain) ]

/-- The NOA positions the legacy `DelayParser::parse` iterates for the Pos
style (src/getopt-rs/src/parser/delay_parser.rs, lines 150-163):
`for index in 1..=noa_count`, the inclusive range. -/
def DelayParser.posPositions (noaCount : Nat) : List Nat :=
  (List.range (noaCount + 1)).drop 1

/-- Rust `TypeId`, abstracted to a natural-number tag. -/
abbrev TypeId := Nat

/-- `AnyValue` (src/aopt/src/value.rs, lines 93-185): a type-erased map from
a value type (its `TypeId`) to the ordered vector of stored values of that
type.  The payload is the type parameter `V`; operations that are generic
over the Rust type `T` take the corresponding `TypeId` here. -/
structure AnyValue (V : Type) where
  inner : List (TypeId × List V)
deriving DecidableEq, Repr

/-- `AnyValue::inner` (src/aopt/src/value.rs, lines 115-117): the vector
stored for a type, when present. -/
def AnyValue.innerVals {V : Type} (a : AnyValue V) (t : TypeId) : Option (List V) :=
  (a.inner.find? (fun e => e.1 == t)).map (fun e => e.2)

/-- `AnyValue::push` (src/aopt/src/value.rs, lines 131-134):
`entry::<T>().or_default().push(val)` appends at the end of the vector of
that type, creating it when absent. -/
def AnyValue.push {V : Type} (a : AnyValue V) (t : TypeId) (v : V) : AnyValue V :=
  match a.innerVals t with
  | some _ =>
    { inner := a.inner.map (fun e => if e.1 == t then (e.1, e.2 ++ [ v ]) else e) }
  | none => { inner := a.inner ++ [ (t, [ v ]) ] }

/-- `AnyValue::val` (src/aopt/src/value.rs, lines 147-154): the last value
of the type, `raise_error` when absent. -/
def AnyValue.val {V : Type} (a : AnyValue V) (t : TypeId) : Except Error V :=
  match (a.innerVals t).bind List.getLast? with
  | some v => .ok v
  | none => .error .raiseError

/-- `AnyValue::val_mut` (src/aopt/src/value.rs, lines 157-164): the last
value of the type (handed out mutably), `raise_error` when absent. -/
def AnyValue.valMut {V : Type} (a : AnyValue V) (t : TypeId) : Except Error V :=
  match (a.innerVals t).bind List.getLast? with
  | some v => .ok v
  | none => .error .raiseError

/-- `AnyValue::vals` (src/aopt/src/value.rs, lines 167-174): the whole
vector of the type, `raise_error` only when the type is absent. -/
def AnyValue.vals {V : Type} (a : AnyValue V) (t : TypeId) : Except Error (List V) :=
  match a.innerVals t with
  | some vs => .ok vs
  | none => .error .raiseError

/-- `AnyValue::vals_mut` (src/aopt/src/value.rs, lines 177-184): like
`vals`, handed out mutably. -/
def AnyValue.valsMut {V : Type} (a : AnyValue V) (t : TypeId) : Except Error (List V) :=
  match a.innerVals t with
  | some vs => .ok vs
  | none => .error .raiseError

/-- The per-parse invocation context as read by `Invoker::invoke`
(src/aopt/src/sync/ctx/invoke.rs, line 174): `ctx.uid()?` yields the uid of
the active inner match context, or a recoverable error when no inner
context is set. -/
structure Ctx where
  innerUid : Option Uid
deriving DecidableEq, Repr

/-- The observable outcome of `Invoker::invoke`: an ordinary error
returned through the `Result` channel (from `ctx.uid()?` or from the
`set.opt(uid)?` inside the `unreachable!` message), the `unreachable!`
abort itself, or the registered callback that gets called. -/
inductive InvokeOutcome (H : Type) where
  | errored : InvokeOutcome H
  | panicked : InvokeOutcome H
  | calls (h : H) : InvokeOutcome H
deriving DecidableEq, Repr

/-- `Invoker` (src/aopt/src/sync/ctx/invoke.rs, lines 86-88): the uid to
handler map, with handlers abstracted to the type parameter `H`. -/
structure Invoker (H : Type) where
  callbacks : List (Uid × H)
deriving DecidableEq, Repr

/-- `HashMap::get` on the callback map. -/
def Invoker.lookup {H : Type} (inv : Invoker H) (uid : Uid) : Option H :=
  (inv.callbacks.find? (fun e => e.1 == uid)).map (fun e => e.2)

/-- `Invoker::has` (src/aopt/src/sync/ctx/invoke.rs, lines 168-170). -/
def Invoker.has {H : Type} (inv : Invoker H) (uid : Uid) : Bool :=
  (inv.callbacks.find? (fun e => e.1 == uid)).isSome

/-- `Invoker::invoke` (src/aopt/src/sync/ctx/invoke.rs, lines 172-185):
read the uid from the context (propagating its error) and call the
registered callback when one exists.  Otherwise the `unreachable!` call is
reached, but its message evaluates `set.opt(uid)?.name()` first (line
182): when the uid is absent from the option set that `?` returns an
ordinary error before any abort; only a uid present in the set reaches
the abort itself. -/
def Invoker.invoke {H : Type} (inv : Invoker H) (set : OptSet) (ctx : Ctx) :
    InvokeOutcome H :=
  match ctx.innerUid with
  | none => .errored
  | some uid =>
    match inv.lookup uid with
    | some cb => .calls cb
    | none =>
      match Set.getOpt set uid with
      | some _ => .panicked
      | none => .errored

/-- Modelled from the spec (§2 "matches update Value Accessors", §4.4
fallback raw-value storage): the value-storing effect on an option of a
completed, handler-invoked match — the "setted" flag is raised and the
candidate's raw argument is appended to the option's stored values. -/
def Opt.applyMatched (opt : Opt) (m : OptMatch) : Opt :=
  { opt with setted := true, vals := opt.vals ++ m.argument.toList }

/-- One event in the handler-invocation schedule of the Delay policy. -/
inductive DelayEvent where
  | invokeOpt (name : Str)
  | invokePos (pos : Nat)
deriving DecidableEq, Repr

/-- Modelled from the spec: the Delay policy's handler-invocation schedule
(`DelayPolicy`, src/aopt/src/parser/policy_delay.rs, is not under src/;
only the legacy src/getopt-rs/src/parser/delay_parser.rs is).  Per §4.3 the
Delay policy defers all Option handler invocation, in original token order,
until after PosCheck, except options in the "no-delay" set, whose handlers
are invoked immediately during OptionScan (which precedes all NOA
processing).  `optMatches` is the list of matched option names in original
token order and `posIdxs` the NOA positions whose Pos handler runs, in
position order. -/
def DelayPolicy.schedule (noDelay : List Str) (optMatches : List Str)
    (posIdxs : List Nat) : List DelayEvent :=
  (optMatches.filter (fun n => noDelay.contains n)).map DelayEvent.invokeOpt
    ++ posIdxs.map DelayEvent.invokePos
    ++ (optMatches.filter (fun n => ! noDelay.contains n)).map DelayEvent.invokeOpt

/-- The option names whose handler has run (hence whose value is visible,
spec §4.4) strictly before the first `invokePos p` event of a schedule. -/
def invokedBeforeFirstPos (evs : List DelayEvent) (p : Nat) : List Str :=
  (evs.takeWhile (fun e => e != DelayEvent.invokePos p)).filterMap
    (fun e => match e with | .invokeOpt n => some n | .invokePos _ => none)

deriving instance DecidableEq for Except

/-- C6: for a token with a recognized prefix, no explicit `=value` segment
and a name of length at least two (written `c :: rest` with `rest ≠ []`),
the EmbeddedValue style produces exactly one candidate whose name is the
first character of the token's name and whose raw value is the remainder. -/
theorem embedded_value_single_candidate
    (cfg : GuessOptCfg) (c : Char) (rest p : Str)
    (hv : cfg.clopt.value = none) (hn : cfg.clopt.name = some (c :: rest))
    (hp : cfg.clopt.pfx = some p) (hr : rest ≠ []) :
    OptGuess.guess .EmbeddedValue cfg
      = .ok (some (OptProcess.new
          [ { index := cfg.idx, total := cfg.len, argument := some rest,
              style := .Argument, disable := cfg.clopt.disable,
              name := [ c ], pfx := p : OptMatch } ])) := by
  have hlen : (c :: rest).length ≥ 2 := by
    cases rest with
    | nil => exact absurd rfl hr
    | cons a l => simp
  simp only [OptGuess.guess, hv, hn, hp, hlen, valueof]
  simp [hlen, valueof, List.take, List.drop, hr]

/-- C6 witness: `-o42` yields the single candidate named `o` carrying the
raw value `42`. -/
theorem embedded_value_single_candidate_witness :
    OptGuess.guess .EmbeddedValue
        { idx := 0, len := 1, arg := none,
          clopt := { name := some [ 'o', '4', '2' ], pfx := some [ '-' ],
                     value := none, disable := false } }
      = .ok (some (OptProcess.new
          [ { index := 0, total := 1, argument := some [ '4', '2' ],
              style := .Argument, disable := false,
              name := [ 'o' ], pfx := [ '-' ] : OptMatch } ])) :=
  embedded_value_single_candidate _ 'o' [ '4', '2' ] [ '-' ] rfl rfl rfl (by decide)

/-- C4 counterexample: with N = 2 NOAs, `FwdPolicy::parse_impl` runs a Pos
NOA Process exactly at position 1 — position 2 is never processed and
position 1 is, contradicting "exactly for the positions 2..N"; the legacy
`DelayParser` processes positions 1 and 2, also including position 1. -/
theorem posScan_positions_counterexample :
    FwdPolicy.posPositions 2 = [ 1 ]
    ∧ (1 : Nat) ∈ FwdPolicy.posPositions 2
    ∧ (2 : Nat) ∉ FwdPolicy.posPositions 2
    ∧ DelayParser.posPositions 2 = [ 1, 2 ] := by decide

/-- C4 (amended): for a parse whose NOA list has N elements, the NOA phase
of `FwdPolicy::parse_impl` performs one Pos-style NOA Process per position
exactly for the positions `1..N` in the half-open Rust sense (that is,
1 to N-1); the legacy `DelayParser::parse` uses the inclusive positions
1 to N; and each such position yields exactly one `NOAMatch` at that
position. -/
theorem posScan_one_process_per_position (noaLen : Nat) (args : List RawVal)
    (pos total : Nat) :
    ((FwdPolicy.noaTrace noaLen).filter
        (fun e => e.1 == UserStyle.Pos)).map (fun e => e.2)
      = (List.range noaLen).drop 1
    ∧ DelayParser.posPositions noaLen = (List.range (noaLen + 1)).drop 1
    ∧ NOAGuess.guess .Pos { args := args, index := pos, total := total }
      = .ok (some (NOAProcess.new (some
          { name := if pos > 0 then args.get? (pos - 1) else none,
            args := args, noaIndex := pos, noaTotal := total,
            style := .Pos }))) := by
  refine ⟨?_, rfl, rfl⟩
  by_cases h : noaLen > 0
  · simp [FwdPolicy.noaTrace, FwdPolicy.posPositions, FwdPolicy.noaPos, h,
      List.filter_append, List.filter_map, List.map_map, Function.comp_def]
  · simp [FwdPolicy.noaTrace, h, Nat.le_zero.mp (Nat.not_lt.mp h)]

/-- A one-option registry whose single option has uid 3, used by the C9
theorems. -/
def uid3Set : OptSet :=
  [ { uid := 3, name := [ 'x' ], pfx := some [ '-' ], aliases := [],
      styles := [ .Boolean ], setted := false, vals := [],
      checker := .const true } ]

/-- C9 counterexample: uid 3 has no registered callback and is also absent
from the option set — `Invoker::invoke` returns an ordinary error through
the `Result` channel (the `set.opt(uid)?` inside the `unreachable!`
message, invoke.rs line 182), it does not abort; so "invoke with no
registered handler aborts, never an ordinary error" fails for this uid. -/
theorem invoker_invoke_noset_counterexample :
    Invoker.invoke (H := Nat) ⟨[]⟩ [] ⟨some 3⟩ = .errored
    ∧ Invoker.invoke (H := Nat) ⟨[]⟩ [] ⟨some 3⟩ ≠ .panicked := by decide

/-- C9 (amended): with an active inner context carrying `uid` and no
callback registered for `uid`, `Invoker::invoke` reaches the
`unreachable!` abort when `uid` is present in the option set, but returns
the ordinary error of the set lookup when `uid` is absent from the set;
for every uid with a registered callback, invoke calls exactly that
callback (no abort, no error). -/
theorem invoker_invoke_contract (H : Type) (inv : Invoker H) (set : OptSet)
    (ctx : Ctx) (uid : Uid) (h : ctx.innerUid = some uid) :
    (inv.has uid = false → (Set.getOpt set uid).isSome = true →
      inv.invoke set ctx = .panicked)
    ∧ (inv.has uid = false → Set.getOpt set uid = none →
      inv.invoke set ctx = .errored)
    ∧ (∀ cb, inv.lookup uid = some cb → inv.invoke set ctx = .calls cb) := by
  unfold Invoker.invoke
  rw [h]
  have hlook : inv.has uid = false → inv.lookup uid = none := by
    intro hh
    unfold Invoker.has at hh
    unfold Invoker.lookup
    cases hf : inv.callbacks.find? (fun e => e.1 == uid) <;> simp [hf] at hh ⊢
  refine ⟨?_, ?_, ?_⟩
  · intro hh hset
    cases hs : Set.getOpt set uid with
    | none => rw [hs] at hset; cases hset
    | some o => simp [hlook hh, hs]
  · intro hh hset
    simp [hlook hh, hset]
  · intro cb hcb
    simp [hcb]

/-- C9 witness: with callback 7 registered for uid 3 the invoke calls it;
with no callback but uid 3 declared in the set, the invoke reaches the
abort. -/
theorem invoker_invoke_contract_witness :
    Invoker.invoke (H := Nat) ⟨[ (3, 7) ]⟩ uid3Set ⟨some 3⟩ = .calls 7
    ∧ Invoker.invoke (H := Nat) ⟨[]⟩ uid3Set ⟨some 3⟩ = .panicked :=
  ⟨(invoker_invoke_contract Nat ⟨[ (3, 7) ]⟩ uid3Set ⟨some 3⟩ 3 rfl).2.2 7
      (by decide),
   (invoker_invoke_contract Nat ⟨[]⟩ uid3Set ⟨some 3⟩ 3 rfl).1
      (by decide) (by decide)⟩

/-- C10 counterexample: an `AnyValue` holding a present-but-empty vector
for a type: `vals` returns `Ok` of the empty vector, not an error as the
claim states for "no value of type T present (vector empty)". -/
theorem anyvalue_vals_empty_counterexample :
    (AnyValue.mk [ (0, ([] : List Nat)) ]).vals 0 = .ok []
    ∧ (AnyValue.mk [ (0, ([] : List Nat)) ]).valsMut 0 = .ok [] := by decide

/-- C10 (amended): `AnyValue` keeps the values of a type as an ordered
vector: after `push v`, `val` returns `v` (the last, most recently pushed
element); when the type is absent all four accessors return an error
result; when the type is present with an empty vector, `val` and `val_mut`
return an error result while `vals` and `vals_mut` return `Ok` of the
empty vector — never a panic in either case. -/
theorem anyvalue_access (V : Type) (a : AnyValue V) (t : TypeId) (v : V) :
    ((a.push t v).val t = .ok v)
    ∧ (a.innerVals t = none →
        a.val t = .error .raiseError ∧ a.valMut t = .error .raiseError
        ∧ a.vals t = .error .raiseError ∧ a.valsMut t = .error .raiseError)
    ∧ (a.innerVals t = some [] →
        a.val t = .error .raiseError ∧ a.valMut t = .error .raiseError
        ∧ a.vals t = .ok [] ∧ a.valsMut t = .ok []) := by
  refine ⟨?_, ?_, ?_⟩
  · unfold AnyValue.push
    cases h : a.innerVals t with
    | some vs =>
      have hfind : ∃ e0, a.inner.find? (fun e => e.1 == t) = some e0 ∧ e0.2 = vs := by
        unfold AnyValue.innerVals at h
        cases hf : a.inner.find? (fun e => e.1 == t) with
        | none => rw [hf] at h; simp at h
        | some e0 => rw [hf] at h; simp at h; exact ⟨e0, rfl, h⟩
      obtain ⟨e0, hf, he⟩ := hfind
      have he1 : (e0.1 == t) = true := by
        have h' := List.find?_some hf
        simpa using h'
      unfold AnyValue.val AnyValue.innerVals
      rw [List.find?_map]
      have hcomp :
          ((fun e : TypeId × List V => e.1 == t) ∘
            (fun e : TypeId × List V => if e.1 == t then (e.1, e.2 ++ [ v ]) else e))
          = (fun e : TypeId × List V => e.1 == t) := by
        funext e
        by_cases hc : e.1 = t <;> simp [hc]
      rw [hcomp, hf]
      have ht : e0.1 = t := by simpa using he1
      simp [ht, he, List.getLast?_concat]
    | none =>
      have hf : a.inner.find? (fun e => e.1 == t) = none := by
        unfold AnyValue.innerVals at h
        cases hf : a.inner.find? (fun e => e.1 == t) with
        | none => rfl
        | some e0 => rw [hf] at h; simp at h
      unfold AnyValue.val AnyValue.innerVals
      rw [List.find?_append, hf]
      simp
  · intro h
    refine ⟨?_, ?_, ?_, ?_⟩ <;>
      simp [AnyValue.val, AnyValue.valMut, AnyValue.vals, AnyValue.valsMut, h]
  · intro h
    refine ⟨?_, ?_, ?_, ?_⟩ <;>
      simp [AnyValue.val, AnyValue.valMut, AnyValue.vals, AnyValue.valsMut, h]

/-- C10 witness: pushing 5 for type tag 0 into an empty store makes `val`
return 5, and on the empty store itself every accessor errors. -/
theorem anyvalue_access_witness :
    ((AnyValue.mk ([] : List (TypeId × List Nat))).push 0 5).val 0 = .ok 5
    ∧ (AnyValue.mk ([] : List (TypeId × List Nat))).vals 0 = .error .raiseError :=
  ⟨(anyvalue_access Nat (AnyValue.mk []) 0 5).1,
   ((anyvalue_access Nat (AnyValue.mk []) 0 5).2.1 (by decide)).2.2.1⟩

theorem getOpt_mem {set : OptSet} {uid : Uid} {o : Opt}
    (h : Set.getOpt set uid = some o) : o ∈ set ∧ o.uid = uid := by
  refine ⟨List.mem_of_find?_eq_some h, ?_⟩
  have h' := List.find?_some h
  simpa using h'

theorem update_setSetted_of_nodup {set : OptSet} {uid : Uid} {o : Opt}
    (hnd : (set.map (fun x => x.uid)).Nodup)
    (hf : Set.getOpt set uid = some o) :
    Set.update set (o.setSetted false)
      = set.map (fun x => if x.uid == uid then x.setSetted false else x) := by
  obtain ⟨hmem, hou⟩ := getOpt_mem hf
  unfold Set.update
  apply List.map_congr_left
  intro x hx
  by_cases hxu : x.uid = uid
  · have hxo : x = o :=
      List.inj_on_of_nodup_map hnd hx hmem (by rw [hxu, hou])
    simp [Opt.setSetted, hou, hxu, hxo]
  · simp [Opt.setSetted, hou, hxu]

theorem undoStep_preserves (acc : List OptMatch) (set : OptSet) (m : OptMatch)
    (hnd : (set.map (fun x => x.uid)).Nodup) :
    ((OptProcess.undoStep (acc, set) m).2.map (fun x => x.uid)
        = set.map (fun x => x.uid))
    ∧ ((OptProcess.undoStep (acc, set) m).2.map (fun x => x.vals)
        = set.map (fun x => x.vals)) := by
  cases hm : m.matchedUid with
  | none => simp [OptProcess.undoStep, hm]
  | some uid =>
    cases hf : Set.getOpt set uid with
    | none => simp [OptProcess.undoStep, hm, hf]
    | some o =>
      have hupd := update_setSetted_of_nodup hnd hf
      simp only [OptProcess.undoStep, hm, hf, OptMatch.undo]
      constructor
      · rw [hupd, List.map_map]
        apply List.map_congr_left
        intro x _
        by_cases hxu : x.uid = uid <;> simp [Opt.setSetted, hxu]
      · rw [hupd, List.map_map]
        apply List.map_congr_left
        intro x _
        by_cases hxu : x.uid = uid <;> simp [Opt.setSetted, hxu]

theorem undo_foldl_preserves (ms : List OptMatch) :
    ∀ (acc : List OptMatch) (set : OptSet),
      (set.map (fun x => x.uid)).Nodup →
      ((ms.foldl OptProcess.undoStep (acc, set)).2.map (fun x => x.uid)
          = set.map (fun x => x.uid))
      ∧ ((ms.foldl OptProcess.undoStep (acc, set)).2.map (fun x => x.vals)
          = set.map (fun x => x.vals)) := by
  induction ms with
  | nil => intro acc set _; exact ⟨rfl, rfl⟩
  | cons m rest ih =>
    intro acc set hnd
    have hstep := undoStep_preserves acc set m hnd
    have hnd' : ((OptProcess.undoStep (acc, set) m).2.map (fun x => x.uid)).Nodup := by
      rw [hstep.1]; exact hnd
    have hr := ih (OptProcess.undoStep (acc, set) m).1
      (OptProcess.undoStep (acc, set) m).2 hnd'
    simp only [List.foldl_cons]
    constructor
    · calc ((rest.foldl OptProcess.undoStep
            ((OptProcess.undoStep (acc, set) m).1,
             (OptProcess.undoStep (acc, set) m).2)).2.map (fun x => x.uid))
          = (OptProcess.undoStep (acc, set) m).2.map (fun x => x.uid) := hr.1
        _ = set.map (fun x => x.uid) := hstep.1
    · calc ((rest.foldl OptProcess.undoStep
            ((OptProcess.undoStep (acc, set) m).1,
             (OptProcess.undoStep (acc, set) m).2)).2.map (fun x => x.vals))
          = (OptProcess.undoStep (acc, set) m).2.map (fun x => x.vals) := hr.2
        _ = set.map (fun x => x.vals) := hstep.2

/-- C8 (amended): undo restores the matched option's "setted" flag to false
and resets the match's recorded uid (and, for NOA matches, the recorded
index) so the token can be re-evaluated — but it does not revert the
option's value state: over a registry with unique uids, `OptProcess::undo`
leaves the uid and stored-value sequences of every option unchanged. -/
theorem undo_reverts_setted_only (m : OptMatch) (nm : NOAMatch) (o : Opt)
    (p : OptProcess) (set : OptSet)
    (hnd : (set.map (fun x => x.uid)).Nodup) :
    OptMatch.undo m o = ({ m with matchedUid := none }, { o with setted := false })
    ∧ NOAMatch.undo nm o
      = ({ nm with matchedUid := none, matchedIndex := none }, { o with setted := false })
    ∧ ((p.undo set).2.map (fun x => x.uid) = set.map (fun x => x.uid))
    ∧ ((p.undo set).2.map (fun x => x.vals) = set.map (fun x => x.vals)) := by
  refine ⟨rfl, rfl, ?_, ?_⟩
  · exact (undo_foldl_preserves p.mats [] set hnd).1
  · exact (undo_foldl_preserves p.mats [] set hnd).2

/-- Concrete option for the C8 counterexample. -/
def cexOpt : Opt :=
  { uid := 0, name := [ 'x' ], pfx := some [ '-' ], aliases := [],
    styles := [ .Argument ], setted := false, vals := [], checker := .const true }

/-- Concrete matched candidate for the C8 counterexample: it carried the
raw value `42` and recorded uid 0. -/
def cexMatch : OptMatch :=
  { name := [ 'x' ], pfx := [ '-' ], style := .Argument,
    argument := some [ '4', '2' ], matchedUid := some 0 }

/-- C8 counterexample: after a match whose application stored the raw value
`42` into the option, undo clears the "setted" flag but the stored value
remains — the option is not left as it was before the match was applied. -/
theorem undo_value_state_counterexample :
    (OptMatch.undo cexMatch (cexOpt.applyMatched cexMatch)).2 ≠ cexOpt
    ∧ (OptMatch.undo cexMatch (cexOpt.applyMatched cexMatch)).2.setted = false
    ∧ (OptMatch.undo cexMatch (cexOpt.applyMatched cexMatch)).2.vals
        = [ [ '4', '2' ] ]
    ∧ cexOpt.vals = [] := by decide

/-- C8 witness: the amended statement at a concrete one-option registry. -/
theorem undo_reverts_setted_only_witness :
    OptMatch.undo cexMatch cexOpt
      = ({ cexMatch with matchedUid := none }, { cexOpt with setted := false })
    ∧ ((OptProcess.new [ cexMatch ]).undo [ cexOpt ]).2.map (fun x => x.vals)
      = [ cexOpt ].map (fun x => x.vals) :=
  ⟨(undo_reverts_setted_only cexMatch {} cexOpt (OptProcess.new [ cexMatch ])
      [ cexOpt ] (by decide)).1,
   (undo_reverts_setted_only cexMatch {} cexOpt (OptProcess.new [ cexMatch ])
      [ cexOpt ] (by decide)).2.2.2⟩

theorem takeWhile_append_all {α : Type} (p : α → Bool) (A B : List α)
    (h : ∀ a ∈ A, p a = true) : (A ++ B).takeWhile p = A ++ B.takeWhile p := by
  rw [List.takeWhile_append]
  rw [List.takeWhile_eq_self_iff.mpr h]
  simp

theorem takeWhile_append_stop {α : Type} (p : α → Bool) (B C : List α)
    (h : ∃ b ∈ B, p b = false) : (B ++ C).takeWhile p = B.takeWhile p := by
  induction B with
  | nil =>
    obtain ⟨b, hb, _⟩ := h
    cases hb
  | cons b B' ih =>
    by_cases hb : p b = true
    · simp only [List.cons_append, List.takeWhile_cons, hb, if_true]
      rw [ih]
      obtain ⟨b0, hb0, hpb0⟩ := h
      rcases List.mem_cons.mp hb0 with h1 | h1
      · rw [h1] at hpb0; rw [hpb0] at hb; cases hb
      · exact ⟨b0, h1, hpb0⟩
    · simp only [List.cons_append, List.takeWhile_cons]
      rw [Bool.eq_false_iff.mpr hb]
      simp

theorem invokedBeforeFirstPos_schedule (nd om : List Str) (pi : List Nat)
    (p : Nat) (hp : p ∈ pi) :
    invokedBeforeFirstPos (DelayPolicy.schedule nd om pi) p
      = om.filter (fun n => nd.contains n) := by
  unfold invokedBeforeFirstPos DelayPolicy.schedule
  rw [List.append_assoc]
  rw [takeWhile_append_all _ _ _ ?hA]
  case hA =>
    intro a ha
    obtain ⟨n, _, rfl⟩ := List.mem_map.mp ha
    simp
  rw [takeWhile_append_stop _ _ _ ?hB]
  case hB =>
    exact ⟨DelayEvent.invokePos p, List.mem_map_of_mem _ hp, by simp⟩
  rw [List.filterMap_append]
  rw [List.takeWhile_map, List.filterMap_map, List.filterMap_map]
  have h1 : List.filterMap
      ((fun e => match e with | .invokeOpt n => some n | .invokePos _ => none)
        ∘ DelayEvent.invokeOpt) (om.filter (fun n => nd.contains n))
      = om.filter (fun n => nd.contains n) := by
    have : ((fun e => match e with | .invokeOpt n => some n | .invokePos _ => none)
        ∘ DelayEvent.invokeOpt) = (some : Str → Option Str) := by
      funext n; rfl
    rw [this, List.filterMap_some]
  have h2 : List.filterMap
      ((fun e => match e with | .invokeOpt n => some n | .invokePos _ => none)
        ∘ DelayEvent.invokePos)
      (List.takeWhile ((fun e => e != DelayEvent.invokePos p)
        ∘ DelayEvent.invokePos) pi) = [] := by
    have : ((fun e => match e with | .invokeOpt n => some n | .invokePos _ => none)
        ∘ DelayEvent.invokePos) = (fun _ : Nat => (none : Option Str)) := by
      funext q; rfl
    rw [this]
    simp
  rw [h1, h2, List.append_nil]

/-- C7: under the Delay policy the handler of every matched option not
flagged "no-delay" is invoked only after all Pos processing (no such
handler has run when any Pos handler runs), those deferred invocations
form the original-token-order subsequence of the matched options, and
handlers of "no-delay" options run during OptionScan, before every Pos
handler — so a Pos handler observes a normal option still unset and a
no-delay option already set. -/
theorem delay_policy_invocation_order (nd om : List Str) (pi : List Nat)
    (p : Nat) (hp : p ∈ pi) :
    (∀ n ∈ om, nd.contains n = true →
      n ∈ invokedBeforeFirstPos (DelayPolicy.schedule nd om pi) p)
    ∧ (∀ n, n ∈ invokedBeforeFirstPos (DelayPolicy.schedule nd om pi) p →
        nd.contains n = true)
    ∧ (∃ evs, DelayPolicy.schedule nd om pi
          = evs ++ (om.filter (fun n => ! nd.contains n)).map DelayEvent.invokeOpt
        ∧ (om.filter (fun n => ! nd.contains n)).Sublist om
        ∧ ∀ q ∈ pi, DelayEvent.invokePos q ∈ evs) := by
  have hk := invokedBeforeFirstPos_schedule nd om pi p hp
  refine ⟨?_, ?_, ?_⟩
  · intro n hn hnd
    rw [hk]
    exact List.mem_filter.mpr ⟨hn, hnd⟩
  · intro n hn
    rw [hk] at hn
    exact (List.mem_filter.mp hn).2
  · refine ⟨(om.filter (fun n => nd.contains n)).map DelayEvent.invokeOpt
        ++ pi.map DelayEvent.invokePos, ?_, List.filter_sublist om, ?_⟩
    · unfold DelayPolicy.schedule
      rw [List.append_assoc]
    · intro q hq
      exact List.mem_append_right _ (List.mem_map_of_mem _ hq)

/-- C7 witness: options `-a` (normal) and `-b` (no-delay) matched in that
order, one Pos handler at NOA index 1: when the Pos handler runs, `b` has
been invoked (set) and `a` has not (unset). -/
theorem delay_policy_invocation_order_witness :
    ([ 'b' ] : Str) ∈ invokedBeforeFirstPos
        (DelayPolicy.schedule [ [ 'b' ] ] [ [ 'a' ], [ 'b' ] ] [ 1 ]) 1
    ∧ (([ 'a' ] : Str) ∈ invokedBeforeFirstPos
        (DelayPolicy.schedule [ [ 'b' ] ] [ [ 'a' ], [ 'b' ] ] [ 1 ]) 1 → False) := by
  have h := delay_policy_invocation_order [ [ 'b' ] ] [ [ 'a' ], [ 'b' ] ]
    [ 1 ] 1 (by decide)
  exact ⟨h.1 [ 'b' ] (by decide) (by decide),
    fun hmem => absurd (h.2.1 [ 'a' ] hmem) (by decide)⟩

theorem parseArg_eq_none (ps : List Str) (tok : RawVal)
    (h : ∀ p ∈ ps, ¬ (p.isPrefixOf tok = true ∧ p ≠ [])) :
    parseArg ps tok = none := by
  unfold parseArg
  have hfind : ps.find? (fun p => p.isPrefixOf tok && !p.isEmpty) = none := by
    rw [List.find?_eq_none]
    intro p hp hpred
    simp only [Bool.and_eq_true] at hpred
    apply h p hp
    refine ⟨hpred.1, ?_⟩
    intro he
    rw [he] at hpred
    simp at hpred
  rw [hfind]

theorem optionScanGo_all_none (strict : Bool) (styles : List UserStyle)
    (ps : List Str) (len : Nat) (set : OptSet) :
    ∀ (toks noa : List RawVal) (idx : Nat),
      (∀ tok ∈ toks, parseArg ps tok = none) →
      FwdPolicy.optionScanGo strict styles ps len set noa idx toks
        = .ok (set, noa ++ toks) := by
  intro toks
  induction toks with
  | nil =>
    intro noa idx _
    simp [FwdPolicy.optionScanGo]
  | cons t rest ih =>
    intro noa idx h
    rw [FwdPolicy.optionScanGo]
    rw [h t (List.mem_cons_self t rest)]
    rw [ih (noa ++ [ t ]) (idx + 1) (fun tok htok => h tok (List.mem_cons_of_mem t htok))]
    simp

/-- C2: when no input token carries a recognized (non-empty) option prefix,
OptionScan matches no option — the registry comes back unchanged — and the
NOA list at the end is the entire input token list in original order. -/
theorem optionScan_no_prefixed_tokens (strict : Bool) (styles : List UserStyle)
    (ps : List Str) (set : OptSet) (args : List RawVal)
    (h : ∀ tok ∈ args, ∀ p ∈ ps, ¬ (p.isPrefixOf tok = true ∧ p ≠ [])) :
    FwdPolicy.optionScan strict styles ps set args = .ok (set, args) := by
  unfold FwdPolicy.optionScan
  rw [optionScanGo_all_none strict styles ps args.length set args [] 0
    (fun tok htok => parseArg_eq_none ps tok (h tok htok))]
  simp

/-- The default user styles in the priority order of spec §4.3 (the
`OptStyleManager` is not under src/). -/
def defaultStyles : List UserStyle :=
  [ .EqualWithValue, .Argument, .EmbeddedValue, .CombinedOption, .Boolean ]

/-- The default prefix set `--`, `-` (spec §6). -/
def defaultPfxs : List Str := [ [ '-', '-' ], [ '-' ] ]

/-- C2 witness: two unprefixed tokens all end up as NOAs, in order, with an
empty registry untouched. -/
theorem optionScan_no_prefixed_tokens_witness :
    FwdPolicy.optionScan true defaultStyles defaultPfxs []
        [ [ 'f', 'o', 'o' ], [ 'b', 'a', 'r' ] ]
      = .ok ([], [ [ 'f', 'o', 'o' ], [ 'b', 'a', 'r' ] ]) :=
  optionScan_no_prefixed_tokens true defaultStyles defaultPfxs []
    [ [ 'f', 'o', 'o' ], [ 'b', 'a', 'r' ] ] (by decide)

/-- C3: a token whose prefix is recognized (it parses to a `CLOpt`) but
which no declared option matches under any enabled style (the style loop
comes back unmatched): under the strict flag the scan fails with the
unknown-option error; under the lenient flag the token is appended to the
NOA list and scanning continues on the remaining tokens. -/
theorem optionScan_unknown_option (styles : List UserStyle) (ps : List Str)
    (len : Nat) (set set' : OptSet) (noa : List RawVal) (idx : Nat)
    (tok : RawVal) (rest : List RawVal) (cl : CLOpt) (nm : Str) (c : Bool)
    (hp : parseArg ps tok = some cl) (hn : cl.name = some nm)
    (hs : FwdPolicy.styleLoop idx len rest.head? cl set false styles
      = .ok (false, c, set')) :
    FwdPolicy.optionScanGo true styles ps len set noa idx (tok :: rest)
      = .error (.spOptionNotFound nm)
    ∧ FwdPolicy.optionScanGo false styles ps len set noa idx (tok :: rest)
      = FwdPolicy.optionScanGo false styles ps len set' (noa ++ [ tok ])
          (idx + 1) rest := by
  constructor
  · rw [FwdPolicy.optionScanGo]
    simp [hp, hn, hs]
  · rw [FwdPolicy.optionScanGo]
    simp [hp, hn, hs]

/-- A single option named `x` (Boolean and Combined capable), used by the
C3 witness. -/
def xOnlySet : OptSet :=
  [ { uid := 0, name := [ 'x' ], pfx := some [ '-' ], aliases := [],
      styles := [ .Boolean, .Combined ], setted := false, vals := [],
      checker := .const true } ]

/-- The parsed form of the token `-y`, used by the C3 witness. -/
def yClopt : CLOpt :=
  { name := some [ 'y' ], pfx := some [ '-' ], value := none, disable := false }

/-- C3 witness: the recognized token `-y` matches no declared option
(only `-x` is declared): fatal under strict, NOA-demoted under lenient. -/
theorem optionScan_unknown_option_witness :
    FwdPolicy.optionScanGo true defaultStyles defaultPfxs 1 xOnlySet [] 0
        [ [ '-', 'y' ] ]
      = .error (.spOptionNotFound [ 'y' ])
    ∧ FwdPolicy.optionScanGo false defaultStyles defaultPfxs 1 xOnlySet [] 0
        [ [ '-', 'y' ] ]
      = FwdPolicy.optionScanGo false defaultStyles defaultPfxs 1 xOnlySet
          [ [ '-', 'y' ] ] 1 [] :=
  optionScan_unknown_option defaultStyles defaultPfxs 1 xOnlySet xOnlySet []
    0 [ '-', 'y' ] [] yClopt [ 'y' ] false
    (by decide) (by decide) (by decide)

/-- A declared boolean flag with prefix `-` (Boolean and Combined capable),
always accepting its value check. -/
def boolOpt (u : Uid) (n : Str) : Opt :=
  { uid := u, name := n, pfx := some [ '-' ], aliases := [],
    styles := [ .Boolean, .Combined ], setted := false, vals := [],
    checker := .const true }

/-- Declared booleans `-a`, `-b`, `-c`. -/
def setABC : OptSet := [ boolOpt 0 [ 'a' ], boolOpt 1 [ 'b' ], boolOpt 2 [ 'c' ] ]

/-- Declared booleans `-a`, `-c` only (the letter `b` is undeclared). -/
def setAC : OptSet := [ boolOpt 0 [ 'a' ], boolOpt 2 [ 'c' ] ]

/-- C5: the CombinedOption style explodes a multi-character name into one
independent single-letter candidate per character, in order; an Option
Process is fully matched exactly when every candidate is matched; so
`-abc` against declared booleans `-a`, `-b`, `-c` sets all three, while
with `-b` undeclared the process stays unmatched — fatal under strict
mode, NOA-demoted (registry unchanged) under lenient mode. -/
theorem combined_option_explode (cfg : GuessOptCfg) (nm p : Str)
    (hv : cfg.clopt.value = none) (hn : cfg.clopt.name = some nm)
    (hp : cfg.clopt.pfx = some p) (hl : nm.length > 1) :
    OptGuess.guess .CombinedOption cfg
      = .ok (some (OptProcess.new (nm.map (fun ch =>
          { index := cfg.idx, total := cfg.len, argument := none,
            style := .Combined, disable := cfg.clopt.disable,
            name := [ ch ], pfx := p : OptMatch }))))
    ∧ (∀ proc : OptProcess,
        proc.isMat = true ↔ ∀ m ∈ proc.mats, m.matchedUid.isSome = true)
    ∧ FwdPolicy.optionScan true defaultStyles defaultPfxs setABC
        [ [ '-', 'a', 'b', 'c' ] ]
      = .ok (setABC.map (fun o => o.setSetted true), [])
    ∧ FwdPolicy.optionScan true defaultStyles defaultPfxs setAC
        [ [ '-', 'a', 'b', 'c' ] ]
      = .error (.spOptionNotFound [ 'a', 'b', 'c' ])
    ∧ FwdPolicy.optionScan false defaultStyles defaultPfxs setAC
        [ [ '-', 'a', 'b', 'c' ] ]
      = .ok (setAC, [ [ '-', 'a', 'b', 'c' ] ]) := by
  refine ⟨?_, ?_, by decide, by decide, by decide⟩
  · have hne : nm ≠ [] := by
      intro he
      rw [he] at hl
      simp at hl
    simp [OptGuess.guess, hv, hn, hp, hl, valueof, hne]
  · intro proc
    simp [OptProcess.isMat, OptMatch.isMat, List.all_eq_true]

/-- C5 witness: the general candidate-explosion conjunct applied to the
token `-abc` (name `abc`, prefix `-`). -/
theorem combined_option_explode_witness :
    OptGuess.guess .CombinedOption
        { idx := 0, len := 1, arg := none,
          clopt := { name := some [ 'a', 'b', 'c' ], pfx := some [ '-' ],
                     value := none, disable := false } }
      = .ok (some (OptProcess.new ([ 'a', 'b', 'c' ].map (fun ch =>
          { index := 0, total := 1, argument := none, style := .Combined,
            disable := false, name := [ ch ], pfx := [ '-' ] : OptMatch }))))
    ∧ FwdPolicy.optionScan true defaultStyles defaultPfxs setABC
        [ [ '-', 'a', 'b', 'c' ] ]
      = .ok (setABC.map (fun o => o.setSetted true), []) :=
  ⟨(combined_option_explode
      { idx := 0, len := 1, arg := none,
        clopt := { name := some [ 'a', 'b', 'c' ], pfx := some [ '-' ],
                   value := none, disable := false } }
      [ 'a', 'b', 'c' ] [ '-' ] rfl rfl rfl (by decide)).1,
   (combined_option_explode
      { idx := 0, len := 1, arg := none,
        clopt := { name := some [ 'a', 'b', 'c' ], pfx := some [ '-' ],
                   value := none, disable := false } }
      [ 'a', 'b', 'c' ] [ '-' ] rfl rfl rfl (by decide)).2.2.1⟩

theorem optMatch_process_consume_irrelevant (m : OptMatch) (opt : Opt)
    (hsome : m.argument.isSome = true) :
    Except.map (fun r => (r.1, r.2.2, r.2.1.argument))
        (OptMatch.process { m with consumeArg := false } opt)
      = Except.map (fun r => (r.1, r.2.2, r.2.1.argument))
        (OptMatch.process { m with consumeArg := true } opt) := by
  cases hargm : m.argument with
  | none => rw [hargm] at hsome; cases hsome
  | some av =>
    simp only [OptMatch.process]
    by_cases h1 : opt.matStyle m.style = true
    · by_cases h2 : ((opt.matName (some m.name) && opt.matPfx (some m.pfx))
          || opt.matAlias m.pfx m.name) = true
      · simp only [h1, h2, if_true, hargm]
        cases hc : opt.checkVal (some av) m.disable (m.index, m.total) with
        | error e => simp [hc, Except.map]
        | ok b => cases b <;> simp [hc, Except.map]
      · simp [h1, h2, Except.map]
    · simp [h1, Except.map]

/-- C1: for an Argument-capable option, the single-token form `--opt=value`
and the two-token form `--opt value` (value without `=`) behave
identically: the Style Classifier produces for both forms one candidate of
style Argument carrying the same raw value (differing only in the
consume-next-token flag), and processing either candidate against any
option yields the same match result, the same option state, and the same
stored raw value. -/
theorem equalWithValue_argument_agree
    (ps : List Str) (t1 t2 : RawVal) (v nm p : Str) (d : Bool)
    (idx len : Nat) (a1 : Option RawVal) (opt : Opt)
    (hv : ('=' ∈ v) → False)
    (h1 : parseArg ps t1
      = some { name := some nm, pfx := some p, value := some v, disable := d })
    (h2 : parseArg ps t2
      = some { name := some nm, pfx := some p, value := none, disable := d }) :
    ∃ m1 m2 : OptMatch,
      OptGuess.guess .EqualWithValue
          { idx := idx, len := len, arg := a1,
            clopt := { name := some nm, pfx := some p, value := some v,
                       disable := d } }
        = .ok (some (OptProcess.new [ m1 ]))
      ∧ OptGuess.guess .Argument
          { idx := idx, len := len, arg := some v,
            clopt := { name := some nm, pfx := some p, value := none,
                       disable := d } }
        = .ok (some (OptProcess.new [ m2 ]))
      ∧ m1.style = .Argument ∧ m2.style = .Argument
      ∧ m1.argument = some v ∧ m2.argument = some v
      ∧ m1 = { m2 with consumeArg := false }
      ∧ Except.map (fun r => (r.1, r.2.2, r.2.1.argument)) (m1.process opt)
        = Except.map (fun r => (r.1, r.2.2, r.2.1.argument)) (m2.process opt) := by
  refine ⟨{ index := idx, total := len, argument := some v, style := .Argument,
            disable := d, name := nm, pfx := p },
          { index := idx, total := len, argument := some v, style := .Argument,
            disable := d, name := nm, pfx := p, consumeArg := true },
          ?_, ?_, rfl, rfl, rfl, rfl, rfl, ?_⟩
  · rfl
  · rfl
  · have hirr := optMatch_process_consume_irrelevant
      { index := idx, total := len, argument := some v, style := .Argument,
        disable := d, name := nm, pfx := p } opt rfl
    simpa using hirr

/-- C1 witness: the tokens `--opt=42` and `--opt 42` under the default
prefixes, against a concrete Argument-capable option `--opt` whose checker
accepts the raw value `42`: identical results. -/
theorem equalWithValue_argument_agree_witness :
    ∃ m1 m2 : OptMatch,
      OptGuess.guess .EqualWithValue
          { idx := 0, len := 2, arg := none,
            clopt := { name := some [ 'o', 'p', 't' ], pfx := some [ '-', '-' ],
                       value := some [ '4', '2' ], disable := false } }
        = .ok (some (OptProcess.new [ m1 ]))
      ∧ OptGuess.guess .Argument
          { idx := 0, len := 2, arg := some [ '4', '2' ],
            clopt := { name := some [ 'o', 'p', 't' ], pfx := some [ '-', '-' ],
                       value := none, disable := false } }
        = .ok (some (OptProcess.new [ m2 ]))
      ∧ m1.style = .Argument ∧ m2.style = .Argument
      ∧ m1.argument = some [ '4', '2' ] ∧ m2.argument = some [ '4', '2' ]
      ∧ m1 = { m2 with consumeArg := false }
      ∧ Except.map (fun r => (r.1, r.2.2, r.2.1.argument))
          (m1.process (boolOpt 0 [ 'x' ]))
        = Except.map (fun r => (r.1, r.2.2, r.2.1.argument))
          (m2.process (boolOpt 0 [ 'x' ])) :=
  equalWithValue_argument_agree defaultPfxs
    [ '-', '-', 'o', 'p', 't', '=', '4', '2' ] [ '-', '-', 'o', 'p', 't' ]
    [ '4', '2' ] [ 'o', 'p', 't' ] [ '-', '-' ] false 0 2 none
    (boolOpt 0 [ 'x' ]) (by decide) (by decide) (by decide)

end Aopt
